import Mathlib

/-!
Verification development for the `projector` library (`src/projector.ts` and its
sibling revisions).  The TypeScript core — configuration resolution, scaffold
execution, manifest loading, link resolution, workspace rewriting and the
install step of `create` — is shallowly embedded below as executable Lean
functions.  External collaborators (the `FsLoc` path library, the file-system
service, `JSON.parse`/`JSON.stringify`, the pnpm subprocess) are modelled in the
minimal faithful way the core observes them: paths as segment lists whose
encoding carries leading and trailing separators (as the test-suite shows for
`FsLoc.encodeSync`), the file system as a path-to-text map plus a record of
created directories, JSON as a structured value type with an executable
printer and parser (whitespace-insensitive; the 2-space indentation of
`JSON.stringify(x, null, 2)` is parse-equivalent and elided), and package
manager commands as trace events (their stdout and registry effects are outside
the core).
-/

namespace Projector

/-! ## Characters and strings -/

/-- Rebuild a `String` from its character list. -/
def chStr (l : List Char) : String := String.mk l

/-- Decimal digit value of a character, if it is one of `0`–`9` (code points
48–57). -/
def digitVal? (c : Char) : Option Nat :=
  if 48 ≤ c.toNat ∧ c.toNat ≤ 57 then some (c.toNat - 48) else none

/-- Big-endian decimal digits of a natural number, fuel-based so that it is
structurally recursive (the fuel `n + 1` always suffices). -/
def natDigitsAux : Nat → Nat → List Char
  | 0, _ => []
  | fuel + 1, n =>
    if n < 10 then [Nat.digitChar n]
    else natDigitsAux fuel (n / 10) ++ [Nat.digitChar (n % 10)]

/-- Decimal representation of a natural number, as characters. -/
def natRepr (n : Nat) : List Char := natDigitsAux (n + 1) n

/-- Greedily consume decimal digits, accumulating their value. -/
def parseDigitsAux : List Char → Nat → Nat × List Char
  | [], acc => (acc, [])
  | c :: cs, acc =>
    match digitVal? c with
    | some d => parseDigitsAux cs (acc * 10 + d)
    | none => (acc, c :: cs)

/-- Parse a nonempty run of decimal digits from the front of the input. -/
def parseNat? : List Char → Option (Nat × List Char)
  | [] => none
  | c :: cs =>
    match digitVal? c with
    | some _ => some (parseDigitsAux (c :: cs) 0)
    | none => none

/-- Value of a digit string under a running accumulator. -/
def valAux : List Char → Nat → Nat
  | [], acc => acc
  | c :: cs, acc => valAux cs (acc * 10 + ((digitVal? c).getD 0))

/-- A character list on which a greedy digit parse stops immediately:
empty, or starting with a non-digit. -/
def stopsNum : List Char → Prop
  | [] => True
  | c :: _ => digitVal? c = none


/-! ## JSON values

The manifest file is JSON text.  `JVal` models the JavaScript values that
`JSON.parse` produces and `JSON.stringify` consumes: a mutually inductive
rendering (lists and members as their own inductives) so that all functions
over it are structurally recursive and kernel-evaluable.  Numbers are modelled
as integers (the manifests this library touches use no fractional numbers). -/

mutual
inductive JVal where
  | null
  | bool (b : Bool)
  | num (n : Int)
  | str (s : String)
  | arr (xs : JList)
  | obj (fs : JMembers)
deriving DecidableEq
inductive JList where
  | nil
  | cons (hd : JVal) (tl : JList)
deriving DecidableEq
inductive JMembers where
  | nil
  | cons (k : String) (v : JVal) (tl : JMembers)
deriving DecidableEq
end

def jLBrace : Char := Char.ofNat 123
def jRBrace : Char := Char.ofNat 125

/-- JavaScript truthiness of a JSON value (`null`, `false`, `0` and `""` are
falsy; every array and object is truthy). -/
def JVal.truthy : JVal → Bool
  | .null => false
  | .bool b => b
  | .num n => !(n == 0)
  | .str s => !(s == "")
  | .arr _ => true
  | .obj _ => true

/-- First binding of a key in an object's member list (JavaScript objects have
unique keys, so this is the binding). -/
def JMembers.lookup : JMembers → String → Option JVal
  | .nil, _ => none
  | .cons k v tl, n => if k = n then some v else tl.lookup n

/-- Property access `v[name]` as the manifest code uses it: a field of an
object, `undefined` (here `none`) on every other value. -/
def JVal.getField : JVal → String → Option JVal
  | .obj fs, n => fs.lookup n
  | _, _ => none

/-- JavaScript property assignment on an object: overwrite the first binding
in place, or append a new binding at the end (insertion order). -/
def JMembers.setKey : JMembers → String → JVal → JMembers
  | .nil, k, v => .cons k v .nil
  | .cons k0 v0 tl, k, v =>
    if k0 = k then .cons k0 v tl else .cons k0 v0 (tl.setKey k v)

/-! ## JSON printing (`JSON.stringify`) -/

/-- String-literal escaping as `JSON.stringify` performs it for the quote and
backslash characters (control characters never occur in the manifests this
model touches, so their `\uXXXX` escapes are not modelled). -/
def escapeChar (c : Char) : List Char :=
  if c = '"' ∨ c = '\\' then ['\\', c] else [c]

def escapeList : List Char → List Char
  | [] => []
  | c :: cs => escapeChar c ++ escapeList cs

def stringifyInt (i : Int) : List Char :=
  if i < 0 then '-' :: natRepr i.natAbs else natRepr i.natAbs

mutual
def stringifyChars : JVal → List Char
  | .null => 'n' :: 'u' :: 'l' :: 'l' :: []
  | .bool true => 't' :: 'r' :: 'u' :: 'e' :: []
  | .bool false => 'f' :: 'a' :: 'l' :: 's' :: 'e' :: []
  | .num i => stringifyInt i
  | .str s => '"' :: escapeList s.data ++ ['"']
  | .arr xs => '[' :: stringifyArrBody xs
  | .obj fs => jLBrace :: stringifyObjBody fs
termination_by structural v => v
def stringifyArrBody : JList → List Char
  | .nil => [']']
  | .cons v tl => stringifyChars v ++ stringifyListRest tl
termination_by structural xs => xs
def stringifyListRest : JList → List Char
  | .nil => [']']
  | .cons v tl => ',' :: stringifyChars v ++ stringifyListRest tl
termination_by structural xs => xs
def stringifyObjBody : JMembers → List Char
  | .nil => [jRBrace]
  | .cons k v tl =>
    '"' :: escapeList k.data ++ '"' :: ':' :: stringifyChars v ++ stringifyMembersRest tl
termination_by structural fs => fs
def stringifyMembersRest : JMembers → List Char
  | .nil => [jRBrace]
  | .cons k v tl =>
    ',' :: '"' :: escapeList k.data ++ '"' :: ':' :: stringifyChars v ++ stringifyMembersRest tl
termination_by structural fs => fs
end

/-- Compact `JSON.stringify`.  The source writes `JSON.stringify(x, null, 2)`;
the 2-space indentation is whitespace only, parse-equivalent, and elided. -/
def jsonStringify (v : JVal) : String := chStr (stringifyChars v)

/-! ## JSON parsing (`JSON.parse`) -/

def isWsChar (c : Char) : Bool :=
  c = ' ' ∨ c = '\n' ∨ c = '\t' ∨ c = '\r'

def skipWs : List Char → List Char
  | [] => []
  | c :: cs => if isWsChar c then skipWs cs else c :: cs

/-- Strip an exact expected character sequence from the front of the input. -/
def dropPat : List Char → List Char → Option (List Char)
  | [], l => some l
  | _ :: _, [] => none
  | p :: ps, c :: cs => if c = p then dropPat ps cs else none

/-- Inverse of `escapeChar` on a single escaped character. -/
def unescapeChar (c : Char) : Option Char :=
  if c = '"' ∨ c = '\\' ∨ c = '/' then some c
  else if c = 'n' then some '\n'
  else if c = 't' then some '\t'
  else if c = 'r' then some '\r'
  else none

/-- Parse the body of a JSON string literal after the opening quote, up to and
including the closing quote. -/
def parseStrBody : List Char → Option (List Char × List Char)
  | [] => none
  | c :: cs =>
    if c = '"' then some ([], cs)
    else if c = '\\' then
      match cs with
      | [] => none
      | e :: cs2 =>
        match unescapeChar e with
        | some u => (parseStrBody cs2).map (fun p => (u :: p.1, p.2))
        | none => none
    else (parseStrBody cs).map (fun p => (c :: p.1, p.2))

mutual
def parseVal : Nat → List Char → Option (JVal × List Char)
  | 0, _ => none
  | fuel + 1, l =>
    match skipWs l with
    | [] => none
    | c :: r =>
      if c = 'n' then (dropPat ['u', 'l', 'l'] r).map (fun r2 => (JVal.null, r2))
      else if c = 't' then (dropPat ['r', 'u', 'e'] r).map (fun r2 => (JVal.bool true, r2))
      else if c = 'f' then (dropPat ['a', 'l', 's', 'e'] r).map (fun r2 => (JVal.bool false, r2))
      else if c = '"' then (parseStrBody r).map (fun p => (JVal.str (chStr p.1), p.2))
      else if c = '-' then (parseNat? r).map (fun p => (JVal.num (-(p.1 : Int)), p.2))
      else if c = '[' then (parseArrBody fuel r).map (fun p => (JVal.arr p.1, p.2))
      else if c = jLBrace then (parseObjBody fuel r).map (fun p => (JVal.obj p.1, p.2))
      else (parseNat? (c :: r)).map (fun p => (JVal.num (p.1 : Int), p.2))
termination_by structural fuel => fuel
def parseArrBody : Nat → List Char → Option (JList × List Char)
  | 0, _ => none
  | fuel + 1, l =>
    match skipWs l with
    | [] => none
    | c :: r =>
      if c = ']' then some (.nil, r)
      else
        match parseVal fuel (c :: r) with
        | some (v, r2) =>
          match parseListRest fuel r2 with
          | some (tl, r3) => some (.cons v tl, r3)
          | none => none
        | none => none
termination_by structural fuel => fuel
def parseListRest : Nat → List Char → Option (JList × List Char)
  | 0, _ => none
  | fuel + 1, l =>
    match skipWs l with
    | [] => none
    | c :: r =>
      if c = ']' then some (.nil, r)
      else if c = ',' then
        match parseVal fuel r with
        | some (v, r2) =>
          match parseListRest fuel r2 with
          | some (tl, r3) => some (.cons v tl, r3)
          | none => none
        | none => none
      else none
termination_by structural fuel => fuel
def parseObjBody : Nat → List Char → Option (JMembers × List Char)
  | 0, _ => none
  | fuel + 1, l =>
    match skipWs l with
    | [] => none
    | c :: r =>
      if c = jRBrace then some (.nil, r)
      else
        match parseMember fuel (c :: r) with
        | some (m, r2) =>
          match parseMembersRest fuel r2 with
          | some (tl, r3) => some (.cons m.1 m.2 tl, r3)
          | none => none
        | none => none
termination_by structural fuel => fuel
def parseMember : Nat → List Char → Option ((String × JVal) × List Char)
  | 0, _ => none
  | fuel + 1, l =>
    match skipWs l with
    | [] => none
    | c :: r =>
      if c = '"' then
        match parseStrBody r with
        | some (k, r2) =>
          match skipWs r2 with
          | ':' :: r3 => (parseVal fuel r3).map (fun p => ((chStr k, p.1), p.2))
          | _ => none
        | none => none
      else none
termination_by structural fuel => fuel
def parseMembersRest : Nat → List Char → Option (JMembers × List Char)
  | 0, _ => none
  | fuel + 1, l =>
    match skipWs l with
    | [] => none
    | c :: r =>
      if c = jRBrace then some (.nil, r)
      else if c = ',' then
        match parseMember fuel r with
        | some (m, r2) =>
          match parseMembersRest fuel r2 with
          | some (tl, r3) => some (.cons m.1 m.2 tl, r3)
          | none => none
        | none => none
      else none
termination_by structural fuel => fuel
end

/-- `JSON.parse`: parse a complete JSON document, requiring that nothing but
whitespace follows.  The fuel `2 * length + 2` dominates the recursion depth of
any document that fits in the input (see `jsize_le_stringify`). -/
def jsonParse (s : String) : Option JVal :=
  match parseVal (2 * s.data.length + 2) s.data with
  | some (v, rest) => if skipWs rest = [] then some v else none
  | none => none

mutual
def jsize : JVal → Nat
  | .arr xs => 1 + lsize xs
  | .obj fs => 1 + msize fs
  | .null => 1
  | .bool _ => 1
  | .num _ => 1
  | .str _ => 1
termination_by structural v => v
def lsize : JList → Nat
  | .nil => 1
  | .cons v tl => 1 + jsize v + lsize tl
termination_by structural xs => xs
def msize : JMembers → Nat
  | .nil => 1
  | .cons _ v tl => 2 + jsize v + msize tl
termination_by structural fs => fs
end

/-! ## Paths (`FsLoc` collaborator)

Absolute directories are modelled as their path segments.  `FsLoc.encodeSync`
renders an absolute directory with leading and trailing separator (the test
suite matches `/^\/tmp\/projector-\d+\/$/` against it), and an absolute file
without the trailing separator. -/

structure AbsDir where
  segments : List String
deriving DecidableEq

def encodeSegs : List String → String
  | [] => ""
  | [s] => s
  | s :: rest => s ++ "/" ++ encodeSegs rest

def AbsDir.encode (d : AbsDir) : String := "/" ++ encodeSegs d.segments ++ "/"

/-- Split a character list on `/`, keeping empty groups. -/
def splitOnSlash : List Char → List (List Char)
  | [] => [[]]
  | c :: cs =>
    match splitOnSlash cs with
    | [] => [[c]]
    | g :: gs => if c = '/' then [] :: g :: gs else (c :: g) :: gs

/-- `FsLoc.AbsDir.decode`: accept strings that start with the root separator,
reading the non-empty groups between separators as segments; reject others
(in particular the empty string). -/
def AbsDir.decode (s : String) : Option AbsDir :=
  match s.data with
  | '/' :: rest => some ⟨((splitOnSlash rest).filter (fun g => !(g.isEmpty))).map chStr⟩
  | _ => none

/-- Path of the manifest file `<root>/package.json` (`FsLocOps.join` followed by
`FsLoc.encodeSync` on the absolute file). -/
def manifestPath (d : AbsDir) : String := d.encode ++ "package.json"

/-! ## File system and event traces -/

/-- The file-system collaborator as the core observes it: text files by path,
plus the record of directories created.  Package-manager commands are traced,
not interpreted (the subprocess collaborator is external). -/
structure FS where
  files : List (String × String)
  dirs : List String
deriving DecidableEq

def setAssoc : List (String × String) → String → String → List (String × String)
  | [], k, v => [(k, v)]
  | (k0, v0) :: tl, k, v =>
    if k0 = k then (k0, v) :: tl else (k0, v0) :: setAssoc tl k v

def lookupAssoc : List (String × String) → String → Option String
  | [], _ => none
  | (k0, v0) :: tl, k => if k0 = k then some v0 else lookupAssoc tl k

def FS.read (fs : FS) (p : String) : Option String := lookupAssoc fs.files p

def FS.write (fs : FS) (p c : String) : FS := ⟨setAssoc fs.files p c, fs.dirs⟩

def FS.mkdir (fs : FS) (p : String) : FS := ⟨fs.files, p :: fs.dirs⟩

/-- Events observable during one `create` call, in execution order: a file
write, or a package-manager command (the string passed to
`project.packageManager`, which the runner prefixes with `pnpm `). -/
inductive Event where
  | fsWrite (path : String)
  | pm (cmd : String)
deriving DecidableEq

/-! ## Configuration input and resolution (`resolveConfigInput`) -/

/-- Error kinds, as named by the error classes of the `projector` revision that
declares them (`InvalidDirectoryError`, `PackageJsonMissingError`,
`FileSystemError`); the current revision raises plain `Error`s with the same
payloads. -/
inductive Err where
  | invalidDirectory (path : String)
  | packageJsonMissing (dir : String)
  | fileSystem (op : String)
deriving DecidableEq

/-- A TypeScript `string | AbsDir` union value. -/
inductive StrOrDir where
  | str (s : String)
  | dir (d : AbsDir)
deriving DecidableEq

/-- JavaScript truthiness of a `string | AbsDir` value: the empty string is
falsy, every other value truthy. -/
def StrOrDir.truthy : StrOrDir → Bool
  | .str s => !(s == "")
  | .dir _ => true

inductive LinkProtocol where
  | link
  | file
deriving DecidableEq

def LinkProtocol.tag : LinkProtocol → String
  | .link => "link"
  | .file => "file"

structure LinkInput where
  dir : StrOrDir
  protocol : LinkProtocol
deriving DecidableEq

/-- The `package` field: literal `false`, or an options object with optional
`install` and `links`. -/
inductive PackageInput where
  | disabled
  | options (install : Option Bool) (links : Option (List LinkInput))
deriving DecidableEq

/-- The `scaffold` field when present: a plain string, a structured `FsLoc`
directory (it has a `_tag`), or a tagged scaffold object. -/
inductive ScaffoldInput where
  | str (s : String)
  | dir (d : AbsDir)
  | template (dir : StrOrDir)
  | initTag
deriving DecidableEq

structure ConfigInput where
  directory : Option StrOrDir
  package : Option PackageInput
  scaffold : Option ScaffoldInput
deriving DecidableEq

inductive Scaffold where
  | template (dir : AbsDir)
  | init
deriving DecidableEq

structure Config where
  directory : AbsDir
  scaffold : Scaffold
  pkgEnabled : Bool
  pkgInstall : Bool
deriving DecidableEq

/-- JavaScript truthiness of the `scaffold` field: `undefined` and the empty
string are falsy; every other allowed value is an object or non-empty string,
hence truthy. -/
def scaffoldFalsy : Option ScaffoldInput → Bool
  | none => true
  | some (.str s) => s == ""
  | some _ => false

/-- The scaffold-normalization block of `resolveConfigInput` (the IIFE yielding
`Scaffold`). -/
def resolveScaffold (si : Option ScaffoldInput) : Except Err Scaffold :=
  if scaffoldFalsy si then .ok .init
  else
    match si with
    | some (.str s) =>
      match AbsDir.decode s with
      | some d => .ok (.template d)
      | none => .error (.invalidDirectory s)
    | some (.dir d) => .ok (.template d)
    | some (.template di) =>
      match di with
      | .str s =>
        match AbsDir.decode s with
        | some d => .ok (.template d)
        | none => .error (.invalidDirectory s)
      | .dir d => .ok (.template d)
    | some .initTag => .ok .init
    | none => .ok .init

/-- The synthesized temporary-directory path `/tmp/projector-${Date.now()}/`,
with `now` the millisecond timestamp. -/
def tempDirPath (now : Nat) : String := "/tmp/projector-" ++ chStr (natRepr now) ++ "/"

def dirTruthy : Option StrOrDir → Bool
  | none => false
  | some v => v.truthy

/-- The directory-resolution block of `resolveConfigInput`: decode or pass
through a supplied directory, otherwise synthesize and create a temporary
directory. -/
def resolveDirectory (di : Option StrOrDir) (now : Nat) (fs : FS) :
    Except Err (AbsDir × FS) :=
  if dirTruthy di then
    match di with
    | some (.str s) =>
      match AbsDir.decode s with
      | some d => .ok (d, fs)
      | none => .error (.invalidDirectory s)
    | some (.dir d) => .ok (d, fs)
    | none => .error (.invalidDirectory "")
  else
    match AbsDir.decode (tempDirPath now) with
    | some d => .ok (d, fs.mkdir d.encode)
    | none => .error (.invalidDirectory (tempDirPath now))

/-- `resolveConfigInput`, in the source's evaluation order: scaffold first,
then `install`, then the directory. -/
def resolveConfigInput (ci : ConfigInput) (now : Nat) (fs : FS) :
    Except Err (Config × FS) :=
  match resolveScaffold ci.scaffold with
  | .error e => .error e
  | .ok sc =>
    let install :=
      match ci.package with
      | some (.options inst _) => inst.getD false
      | _ => false
    match resolveDirectory ci.directory now fs with
    | .error e => .error e
    | .ok (d, fs2) =>
      .ok ({ directory := d, scaffold := sc,
             pkgEnabled := decide (ci.package ≠ some PackageInput.disabled),
             pkgInstall := install }, fs2)

/-! ## Scaffold execution, manifest loading -/

/-- The fixed manifest literal the Init scaffold writes. -/
def initManifest : JVal :=
  .obj (.cons "name" (.str "project")
    (.cons "packageManager" (.str "pnpm@10.10.0") .nil))

/-- Strip an expected leading character sequence, or fail. -/
def leadsDrop? : List Char → List Char → Option (List Char)
  | [], l => some l
  | _ :: _, [] => none
  | p :: ps, c :: cs => if c = p then leadsDrop? ps cs else none

/-- `Fs.copy src dst`: every file under the source directory's encoded path is
written under the destination, same relative remainder. -/
def copyTree (src dst : AbsDir) (fs : FS) : FS × List Event :=
  let pairs := fs.files.filterMap (fun kv =>
    match leadsDrop? src.encode.data kv.1.data with
    | some rem => some (dst.encode ++ chStr rem, kv.2)
    | none => none)
  (pairs.foldl (fun acc kv => acc.write kv.1 kv.2) fs,
   pairs.map (fun kv => Event.fsWrite kv.1))

/-- The scaffold `switch` of `create`: copy the template, or write the fixed
init manifest via `layout.write` (which serializes the object content). -/
def scaffoldStep (cfg : Config) (fs : FS) : FS × List Event :=
  match cfg.scaffold with
  | .template tpl => copyTree tpl cfg.directory fs
  | .init =>
    let p := manifestPath cfg.directory
    (fs.write p (jsonStringify initManifest), [Event.fsWrite p])

/-- The manifest-probing block: `packageJsonResult` is `null` unless the file
exists and parses, in which case it is the parsed value (parse failure is
swallowed). -/
def loadManifest (d : AbsDir) (fs : FS) : JVal :=
  match fs.read (manifestPath d) with
  | none => .null
  | some c =>
    match jsonParse c with
    | some v => v
    | none => .null

/-- `Option.fromNullable`: `null` becomes `none`, every other value — even a
falsy one such as `false` — becomes `some`. -/
def fromNullable : JVal → Option JVal
  | .null => none
  | v => some v

/-! ## Link resolution and workspace rewriting -/

/-- Replace the first occurrence of `pat` in `s` (JavaScript
`String.prototype.replace` with a string pattern). -/
def replaceFirst : List Char → List Char → List Char → List Char
  | s, pat, rep =>
    match leadsDrop? pat s with
    | some rem => rep ++ rem
    | none =>
      match s with
      | [] => []
      | c :: cs => c :: replaceFirst cs pat rep

/-- The regex replace `.replace(/^\//, '')`: strip one leading separator. -/
def stripLeadSlash : List Char → List Char
  | '/' :: cs => cs
  | l => l

/-- The relative-path computation of the link loop:
`linkDirString.replace(projectDirString, '').replace(/^\//, '')` prefixed with
`../`. -/
def relSpecifier (projectDir linkDir : AbsDir) : String :=
  "../" ++ chStr (stripLeadSlash (replaceFirst linkDir.encode.data projectDir.encode.data []))

/-- `linkDir.path.segments[length - 1] || 'unknown'`. -/
def linkName (d : AbsDir) : String :=
  match d.segments.getLast? with
  | some s => if s = "" then "unknown" else s
  | none => "unknown"

/-- The `workspace:*` test of the link loop:
`packageJsonResult.dependencies?.[linkDirName] === 'workspace:*'`. -/
def depsIsWorkspaceStar (pj : JVal) (name : String) : Bool :=
  match pj.getField "dependencies" with
  | some deps =>
    match deps.getField name with
    | some (.str s) => s == "workspace:*"
    | _ => false
  | none => false

/-- Decode one link request's `dir` field. -/
def decodeLinkDir (lk : LinkInput) : Except Err AbsDir :=
  match lk.dir with
  | .str s =>
    match AbsDir.decode s with
    | some d => .ok d
    | none => .error (.invalidDirectory s)
  | .dir d => .ok d

/-- Loop state of the link loop: the `workspaceReplacements` accumulator and
the package-manager commands issued so far, in order. -/
structure LoopState where
  repl : List (String × String)
  events : List Event
deriving DecidableEq

/-- One iteration of the link loop: queue a workspace rewrite (recording
`<protocol>:<relativePath>` under the link's name), or immediately issue the
`add` command with that same specifier. -/
def processLink (projectDir : AbsDir) (pj : JVal) (st : LoopState) (lk : LinkInput) :
    Except Err LoopState :=
  match decodeLinkDir lk with
  | .error e => .error e
  | .ok linkDir =>
    if pj.truthy && depsIsWorkspaceStar pj (linkName linkDir) then
      .ok { st with repl := setAssoc st.repl (linkName linkDir) (lk.protocol.tag ++ ":" ++ relSpecifier projectDir linkDir) }
    else
      .ok { st with events := st.events ++ [Event.pm ("add " ++ lk.protocol.tag ++ ":" ++ relSpecifier projectDir linkDir)] }

def processLinks (projectDir : AbsDir) (pj : JVal) :
    List LinkInput → LoopState → Except Err LoopState
  | [], st => .ok st
  | lk :: rest, st =>
    match processLink projectDir pj st lk with
    | .ok st2 => processLinks projectDir pj rest st2
    | .error e => .error e

/-- Apply the queued replacements to a member list by repeated property
assignment, in queue order. -/
def applyRepl : JMembers → List (String × String) → JMembers
  | deps, [] => deps
  | deps, (k, v) :: tl => applyRepl (deps.setKey k (.str v)) tl

def fieldTruthy (m : JVal) (n : String) : Bool :=
  match m.getField n with
  | some v => v.truthy
  | none => false

/-- The workspace-rewrite block: when replacements were queued, re-read the
manifest text from disk, parse it, and if `manifest && manifest.dependencies`
holds, assign each replacement into `dependencies` and write the document
back.  An unreadable or unparseable manifest here is fatal (the parse is not
guarded); a truthy non-object `dependencies` would make the strict-mode
property assignment throw — both are unreachable from `create`, whose queue is
only non-empty when the loaded manifest's `dependencies` object held a
`workspace:*` entry. -/
def rewriteStep (d : AbsDir) (repl : List (String × String)) (fs : FS) :
    Except Err (FS × List Event) :=
  if repl.isEmpty then .ok (fs, [])
  else
    match fs.read (manifestPath d) with
    | none => .error (.fileSystem "readString")
    | some content =>
      match jsonParse content with
      | none => .error (.fileSystem "JSON.parse")
      | some m =>
        if m.truthy && fieldTruthy m "dependencies" then
          match m with
          | .obj fields =>
            match fields.lookup "dependencies" with
            | some (.obj deps) =>
              let m2 := JVal.obj (fields.setKey "dependencies" (.obj (applyRepl deps repl)))
              .ok (fs.write (manifestPath d) (jsonStringify m2),
                   [Event.fsWrite (manifestPath d)])
            | _ => .error (.fileSystem "TypeError")
          | _ => .error (.fileSystem "TypeError")
        else .ok (fs, [])

/-! ## `create` -/

/-- `parameters.package ? parameters.package.links ?? [] : []`. -/
def linksOf (ci : ConfigInput) : List LinkInput :=
  match ci.package with
  | some (.options _ (some ls)) => ls
  | _ => []

/-- The returned project handle, restricted to the data the claims observe
(the shell and script runners are closures over the same directory). -/
structure Handle where
  dir : AbsDir
  packageJson : Option JVal
deriving DecidableEq

def installStep (doInstall : Bool) : List Event :=
  if doInstall then [Event.pm "install"] else []

/-- The `create` pipeline: resolve configuration, scaffold, probe the manifest,
enforce the presence invariant, run the link loop (queueing rewrites, issuing
immediate adds), apply queued rewrites, and optionally install.  The returned
trace lists file writes and package-manager commands in execution order.  A
failure carries no handle and no trace (side effects performed before the
failing step are not modelled for the error case). -/
def create (ci : ConfigInput) (now : Nat) (fs0 : FS) :
    Except Err (Handle × FS × List Event) :=
  match resolveConfigInput ci now fs0 with
  | .error e => .error e
  | .ok (cfg, fs1) =>
    let sc := scaffoldStep cfg fs1
    let pj := loadManifest cfg.directory sc.1
    if cfg.pkgEnabled && !pj.truthy then
      .error (.packageJsonMissing cfg.directory.encode)
    else
      match processLinks cfg.directory pj (linksOf ci) ⟨[], []⟩ with
      | .error e => .error e
      | .ok st =>
        match rewriteStep cfg.directory st.repl sc.1 with
        | .error e => .error e
        | .ok (fs3, ev2) =>
          .ok ({ dir := cfg.directory, packageJson := fromNullable pj },
               fs3, sc.2 ++ st.events ++ ev2 ++ installStep cfg.pkgInstall)

/-! ## Observation helpers -/

/-- The package-manager commands of a trace, in order. -/
def pmCmds (evs : List Event) : List String :=
  evs.filterMap (fun e =>
    match e with
    | .pm c => some c
    | .fsWrite _ => none)

def runTrace (r : Except Err (Handle × FS × List Event)) : List Event :=
  match r with
  | .ok (_, _, tr) => tr
  | .error _ => []

def runPmCmds (r : Except Err (Handle × FS × List Event)) : List String :=
  pmCmds (runTrace r)

def pkgJsonOf (r : Except Err (Handle × FS × List Event)) : Option JVal :=
  match r with
  | .ok (h, _, _) => h.packageJson
  | .error _ => none

/-- The manifest's `dependencies` entry for a name, read back from a file
system. -/
def depEntry (fs : FS) (d : AbsDir) (n : String) : Option JVal :=
  match fs.read (manifestPath d) with
  | none => none
  | some c =>
    match jsonParse c with
    | none => none
    | some m =>
      match m.getField "dependencies" with
      | none => none
      | some deps => deps.getField n

def runDepEntry (r : Except Err (Handle × FS × List Event)) (n : String) : Option JVal :=
  match r with
  | .ok (h, fs, _) => depEntry fs h.dir n
  | .error _ => none

def manifestTextOf (r : Except Err (Handle × FS × List Event)) : Option String :=
  match r with
  | .ok (h, fs, _) => fs.read (manifestPath h.dir)
  | .error _ => none

/-! ## Derived observations used by the statements -/

/-- Last value recorded for a key in an association list (with unique keys,
the value recorded by the most recent update). -/
def lookupLast : List (String × String) → String → Option String
  | [], _ => none
  | (k, v) :: tl, n =>
    match lookupLast tl n with
    | some w => some w
    | none => if k = n then some v else none

/-- Keys of an association list. -/
def keysOf : List (String × String) → List String
  | [] => []
  | (k, _) :: tl => k :: keysOf tl

/-- Keys of an association list are pairwise distinct. -/
def keysNodup (l : List (String × String)) : Prop := (keysOf l).Nodup

/-- The package-manager `add` event a link request produces when it does not
match a `workspace:*` dependency (and `none` when it matches, or when its
directory fails to decode). -/
def addEventOf (d : AbsDir) (pj : JVal) (lk : LinkInput) : Option Event :=
  match decodeLinkDir lk with
  | .error _ => none
  | .ok dd =>
    if pj.truthy && depsIsWorkspaceStar pj (linkName dd) then none
    else some (.pm ("add " ++ lk.protocol.tag ++ ":" ++ relSpecifier d dd))

/-- The specifier of the last link request in the list whose final path segment
is `n` and which matches a `workspace:*` dependency of the loaded manifest. -/
def lastMatchSpec (d : AbsDir) (pj : JVal) : List LinkInput → String → Option String
  | [], _ => none
  | lk :: tl, n =>
    match lastMatchSpec d pj tl n with
    | some v => some v
    | none =>
      match decodeLinkDir lk with
      | .ok dd =>
        if pj.truthy && depsIsWorkspaceStar pj (linkName dd) && (linkName dd == n)
        then some (lk.protocol.tag ++ ":" ++ relSpecifier d dd)
        else none
      | .error _ => none

/-- The encoded project root a configuration resolves to, if resolution
succeeds. -/
def resolvedDirOf (ci : ConfigInput) (now : Nat) (fs : FS) : Option String :=
  match resolveConfigInput ci now fs with
  | .ok (cfg, _) => some cfg.directory.encode
  | .error _ => none

/-- The directories created during configuration resolution, if it succeeds. -/
def resolvedDirsOf (ci : ConfigInput) (now : Nat) (fs : FS) : Option (List String) :=
  match resolveConfigInput ci now fs with
  | .ok (_, fs2) => some fs2.dirs
  | .error _ => none

/-! ## Concrete scenarios used by closed theorems -/

/-- Scenario of the spec's sibling-link end-to-end test: project root
`/tmp/p/`, one link request with protocol `link` and target `/tmp/mylib/`,
init scaffold (whose manifest has no `dependencies`). -/
def sibInput : ConfigInput :=
  { directory := some (.dir ⟨["tmp", "p"]⟩),
    package := some (.options none (some [⟨.dir ⟨["tmp", "mylib"]⟩, .link⟩])),
    scaffold := some .initTag }

/-- A manifest declaring `liba` as a `workspace:*` dependency. -/
def wsManifestA : JVal :=
  .obj (.cons "dependencies" (.obj (.cons "liba" (.str "workspace:*") .nil)) .nil)

/-- Pre-existing file system for the ordering scenario: the project root
already holds the `workspace:*` manifest. -/
def orderFs : FS := ⟨[("/tmp/p/package.json", jsonStringify wsManifestA)], []⟩

/-- Ordering scenario: template scaffold from an empty directory (so the
pre-existing manifest survives), then two link requests — `/tmp/liba/` (which
matches `workspace:*` and is queued) followed by `/tmp/libb/` (which does not
match and is added immediately). -/
def orderInput : ConfigInput :=
  { directory := some (.dir ⟨["tmp", "p"]⟩),
    package := some (.options none (some
      [⟨.dir ⟨["tmp", "liba"]⟩, .link⟩, ⟨.dir ⟨["tmp", "libb"]⟩, .link⟩])),
    scaffold := some (.template (.dir ⟨["tpl"]⟩)) }

/-- A manifest declaring `mylib` as a `workspace:*` dependency. -/
def wsManifestM : JVal :=
  .obj (.cons "dependencies" (.obj (.cons "mylib" (.str "workspace:*") .nil)) .nil)

def dupFs : FS := ⟨[("/tmp/p/package.json", jsonStringify wsManifestM)], []⟩

/-- Duplicate-name scenario: two link requests whose targets share the final
path segment `mylib` (`/a/mylib/` with protocol `link`, then `/b/mylib/` with
protocol `file`), both matching the same `workspace:*` dependency. -/
def dupInput : ConfigInput :=
  { directory := some (.dir ⟨["tmp", "p"]⟩),
    package := some (.options none (some
      [⟨.dir ⟨["a", "mylib"]⟩, .link⟩, ⟨.dir ⟨["b", "mylib"]⟩, .file⟩])),
    scaffold := some (.template (.dir ⟨["tpl"]⟩)) }

/-- A manifest file whose text parses to the falsy JSON value `false`. -/
def falsyFs : FS := ⟨[("/tmp/p/package.json", "false")], []⟩

/-- Package management disabled, template scaffold from an empty directory,
over `falsyFs`. -/
def falsyOffInput : ConfigInput :=
  { directory := some (.dir ⟨["tmp", "p"]⟩),
    package := some .disabled,
    scaffold := some (.template (.dir ⟨["tpl"]⟩)) }

/-- Package management enabled (options object), otherwise as
`falsyOffInput`. -/
def falsyOnInput : ConfigInput :=
  { directory := some (.dir ⟨["tmp", "p"]⟩),
    package := some (.options none none),
    scaffold := some (.template (.dir ⟨["tpl"]⟩)) }

/-- A file system holding an unparseable manifest at the project root. -/
def badJsonFs : FS := ⟨[("/tmp/p/package.json", "not json")], []⟩

/-- Package management disabled, template scaffold from an empty directory,
over `badJsonFs`. -/
def badOffInput : ConfigInput :=
  { directory := some (.dir ⟨["tmp", "p"]⟩),
    package := some .disabled,
    scaffold := some (.template (.dir ⟨["tpl"]⟩)) }

/-- Package management enabled, otherwise as `badOffInput`. -/
def badOnInput : ConfigInput :=
  { directory := some (.dir ⟨["tmp", "p"]⟩),
    package := some (.options none none),
    scaffold := some (.template (.dir ⟨["tpl"]⟩)) }

/-- Resolved configuration of the disabled-package scenarios over `/tmp/p/`
with the empty template `/tpl/`. -/
def offCfg : Config :=
  { directory := ⟨["tmp", "p"]⟩, scaffold := .template ⟨["tpl"]⟩,
    pkgEnabled := false, pkgInstall := false }

/-- Resolved configuration of the enabled-package scenarios over `/tmp/p/`
with the empty template `/tpl/`. -/
def onCfg : Config :=
  { directory := ⟨["tmp", "p"]⟩, scaffold := .template ⟨["tpl"]⟩,
    pkgEnabled := true, pkgInstall := false }

/-- Resolved configuration of an init-scaffold scenario over `/tmp/p/`. -/
def initCfg : Config :=
  { directory := ⟨["tmp", "p"]⟩, scaffold := .init,
    pkgEnabled := true, pkgInstall := false }

/-- The member list of `wsManifestM`. -/
def wsFieldsM : JMembers :=
  .cons "dependencies" (.obj (.cons "mylib" (.str "workspace:*") .nil)) .nil

/-- The `dependencies` member list of `wsManifestM`. -/
def wsDepsM : JMembers := .cons "mylib" (.str "workspace:*") .nil

/-! ## Theorems: digits and the JSON round trip -/

theorem valAux_append (xs ys : List Char) (acc : Nat) :
    valAux (xs ++ ys) acc = valAux ys (valAux xs acc) := by
  induction xs generalizing acc with
  | nil => rfl
  | cons c cs ih => simp [valAux, ih]

theorem digitVal?_digitChar {d : Nat} (h : d < 10) :
    digitVal? (Nat.digitChar d) = some d := by
  interval_cases d <;> decide

theorem natDigitsAux_spec :
    ∀ fuel n, n < fuel →
      (∀ c ∈ natDigitsAux fuel n, (digitVal? c).isSome) ∧
      (∀ acc, valAux (natDigitsAux fuel n) acc
        = acc * 10 ^ (natDigitsAux fuel n).length + n) ∧
      natDigitsAux fuel n ≠ [] := by
  intro fuel
  induction fuel with
  | zero => intro n h; omega
  | succ f ih =>
    intro n h
    by_cases hn : n < 10
    · refine ⟨?_, ?_, by simp [natDigitsAux, hn]⟩
      · intro c hc
        simp [natDigitsAux, hn] at hc
        subst hc
        simp [digitVal?_digitChar hn]
      · intro acc
        simp [natDigitsAux, hn, valAux, digitVal?_digitChar hn]
    · have hdiv : n / 10 < f := by omega
      obtain ⟨ihd, ihv, ihne⟩ := ih (n / 10) hdiv
      have hmod : n % 10 < 10 := Nat.mod_lt _ (by omega)
      refine ⟨?_, ?_, by simp [natDigitsAux, hn]⟩
      · intro c hc
        simp [natDigitsAux, hn] at hc
        rcases hc with hc | hc
        · exact ihd c hc
        · subst hc; simp [digitVal?_digitChar hmod]
      · intro acc
        simp only [natDigitsAux, hn, if_false]
        rw [valAux_append, ihv acc]
        simp [valAux, digitVal?_digitChar hmod, List.length_append, pow_succ]
        ring_nf
        omega

theorem parseDigitsAux_all_digits (ds : List Char)
    (hds : ∀ c ∈ ds, (digitVal? c).isSome) (rest : List Char)
    (hrest : stopsNum rest) (acc : Nat) :
    parseDigitsAux (ds ++ rest) acc = (valAux ds acc, rest) := by
  induction ds generalizing acc with
  | nil =>
    cases rest with
    | nil => rfl
    | cons c cs =>
      simp only [stopsNum] at hrest
      simp [parseDigitsAux, hrest, valAux]
  | cons c cs ih =>
    have hc : (digitVal? c).isSome := hds c (by simp)
    obtain ⟨d, hd⟩ := Option.isSome_iff_exists.mp hc
    simp only [List.cons_append, parseDigitsAux, hd, List.append_eq]
    rw [ih (fun x hx => hds x (by simp [hx]))]
    simp [valAux, hd]

theorem parseNat?_natRepr (n : Nat) (rest : List Char) (hrest : stopsNum rest) :
    parseNat? (natRepr n ++ rest) = some (n, rest) := by
  obtain ⟨hd, hv, hne⟩ := natDigitsAux_spec (n + 1) n (by omega)
  rcases hlist : natDigitsAux (n + 1) n with _ | ⟨c, cs⟩
  · exact absurd hlist hne
  · have hc : (digitVal? c).isSome := by
      rw [hlist] at hd; exact hd c (by simp)
    obtain ⟨d, hdc⟩ := Option.isSome_iff_exists.mp hc
    have hall : ∀ x ∈ c :: cs, (digitVal? x).isSome := by
      rw [hlist] at hd; exact hd
    have hval := hv 0
    rw [hlist] at hval
    simp only [natRepr, hlist, List.cons_append, parseNat?, hdc]
    have := parseDigitsAux_all_digits (c :: cs) hall rest hrest 0
    simp only [List.cons_append] at this
    rw [this]
    simp at hval
    rw [hval]

/-! ## Printer–parser round trip -/

theorem chStr_data (s : String) : chStr s.data = s := rfl

theorem skipWs_cons {c : Char} (l : List Char) (h : isWsChar c = false) :
    skipWs (c :: l) = c :: l := by
  simp [skipWs, h]

theorem dropPat_append (p l : List Char) : dropPat p (p ++ l) = some l := by
  induction p with
  | nil => rfl
  | cons c cs ih => simp [dropPat, ih]

theorem parseStrBody_escape (s rest : List Char) :
    parseStrBody (escapeList s ++ '"' :: rest) = some (s, rest) := by
  induction s with
  | nil =>
    rw [show escapeList [] ++ '"' :: rest = '"' :: rest from rfl, parseStrBody.eq_def]
    simp
  | cons c cs ih =>
    by_cases hc : c = '"' ∨ c = '\\'
    · have h1 : escapeList (c :: cs) ++ '"' :: rest
          = '\\' :: c :: (escapeList cs ++ '"' :: rest) := by
        simp [escapeList, escapeChar, hc]
      have hu : unescapeChar c = some c := by
        rcases hc with h | h <;> subst h <;> decide
      rw [h1, parseStrBody.eq_def]
      simp +decide [hu, ih]
    · have h1 : escapeList (c :: cs) ++ '"' :: rest
          = c :: (escapeList cs ++ '"' :: rest) := by
        simp [escapeList, escapeChar, hc]
      rw [h1, parseStrBody.eq_def]
      push_neg at hc
      simp [hc.1, hc.2, ih]

theorem digit_not_special {c : Char} (h : (digitVal? c).isSome) :
    isWsChar c = false ∧ c ≠ 'n' ∧ c ≠ 't' ∧ c ≠ 'f' ∧ c ≠ '"' ∧ c ≠ '-' ∧
      c ≠ '[' ∧ c ≠ jLBrace ∧ c ≠ ']' := by
  have hb : 48 ≤ c.toNat ∧ c.toNat ≤ 57 := by
    by_contra hb
    simp [digitVal?, hb] at h
  obtain ⟨h0, h9⟩ := hb
  refine ⟨?_, ?_, ?_, ?_, ?_, ?_, ?_, ?_, ?_⟩
  · simp only [isWsChar]
    have : ¬(c = ' ' ∨ c = '\n' ∨ c = '\t' ∨ c = '\r') := by
      rintro (rfl | rfl | rfl | rfl) <;> revert h0 h9 <;> decide
    simp [this]
  all_goals rintro rfl <;> revert h0 h9 <;> decide

theorem natRepr_head (n : Nat) :
    ∃ c t, natRepr n = c :: t ∧ (digitVal? c).isSome := by
  obtain ⟨hd, _, hne⟩ := natDigitsAux_spec (n + 1) n (by omega)
  rcases hlist : natDigitsAux (n + 1) n with _ | ⟨c, cs⟩
  · exact absurd hlist hne
  · refine ⟨c, cs, hlist, ?_⟩
    rw [hlist] at hd
    exact hd c (by simp)

theorem stringify_head (v : JVal) :
    ∃ c t, stringifyChars v = c :: t ∧ isWsChar c = false ∧ c ≠ ']' := by
  cases v with
  | null => exact ⟨'n', _, rfl, by decide, by decide⟩
  | bool b =>
    cases b with
    | false => exact ⟨'f', _, rfl, by decide, by decide⟩
    | true => exact ⟨'t', _, rfl, by decide, by decide⟩
  | num i =>
    by_cases hi : i < 0
    · refine ⟨'-', natRepr i.natAbs, ?_, by decide, by decide⟩
      rw [show stringifyChars (.num i) = stringifyInt i from rfl]
      unfold stringifyInt
      rw [if_pos hi]
    · obtain ⟨c, t, ht, hdig⟩ := natRepr_head i.natAbs
      obtain ⟨hws, _, _, _, _, _, _, _, hrb⟩ := digit_not_special hdig
      refine ⟨c, t, ?_, hws, hrb⟩
      rw [show stringifyChars (.num i) = stringifyInt i from rfl]
      unfold stringifyInt
      rw [if_neg hi, ht]
  | str s => exact ⟨'"', _, rfl, by decide, by decide⟩
  | arr xs => exact ⟨'[', _, rfl, by decide, by decide⟩
  | obj fs => exact ⟨jLBrace, _, rfl, by decide, by decide⟩

theorem stopsNum_listRest (tl : JList) (rest : List Char) :
    stopsNum (stringifyListRest tl ++ rest) := by
  cases tl <;> simp [stringifyListRest, stopsNum] <;> decide

theorem stopsNum_membersRest (tl : JMembers) (rest : List Char) :
    stopsNum (stringifyMembersRest tl ++ rest) := by
  cases tl <;> simp [stringifyMembersRest, stopsNum] <;> decide

theorem parse_stringify_aux : ∀ fuel : Nat,
    (∀ v rest, jsize v ≤ fuel → stopsNum rest →
      parseVal fuel (stringifyChars v ++ rest) = some (v, rest)) ∧
    (∀ xs rest, lsize xs ≤ fuel →
      parseArrBody fuel (stringifyArrBody xs ++ rest) = some (xs, rest)) ∧
    (∀ xs rest, lsize xs ≤ fuel →
      parseListRest fuel (stringifyListRest xs ++ rest) = some (xs, rest)) ∧
    (∀ fs rest, msize fs ≤ fuel →
      parseObjBody fuel (stringifyObjBody fs ++ rest) = some (fs, rest)) ∧
    (∀ k v rest, 1 + jsize v ≤ fuel → stopsNum rest →
      parseMember fuel (('"' :: escapeList (String.data k) ++ '"' :: ':' :: stringifyChars v) ++ rest)
        = some ((k, v), rest)) ∧
    (∀ fs rest, msize fs ≤ fuel →
      parseMembersRest fuel (stringifyMembersRest fs ++ rest) = some (fs, rest)) := by
  intro fuel
  induction fuel with
  | zero =>
    refine ⟨?_, ?_, ?_, ?_, ?_, ?_⟩
    · intro v _ h _; cases v <;> simp [jsize] at h <;> omega
    · intro xs _ h; cases xs <;> simp [lsize] at h <;> omega
    · intro xs _ h; cases xs <;> simp [lsize] at h <;> omega
    · intro fs _ h; cases fs <;> simp [msize] at h <;> omega
    · intro _ _ _ h; omega
    · intro fs _ h; cases fs <;> simp [msize] at h <;> omega
  | succ f ih =>
    obtain ⟨ihV, ihA, ihL, ihO, ihM, ihR⟩ := ih
    have hVal : ∀ v rest, jsize v ≤ f + 1 → stopsNum rest →
        parseVal (f + 1) (stringifyChars v ++ rest) = some (v, rest) := by
      intro v rest hsz hstop
      cases v with
      | null =>
        simp +decide [stringifyChars, parseVal, skipWs, dropPat]
      | bool b =>
        cases b <;> simp +decide [stringifyChars, parseVal, skipWs, dropPat]
      | num i =>
        by_cases hi : i < 0
        · have h1 : stringifyChars (.num i) = '-' :: natRepr i.natAbs := by
            rw [show stringifyChars (.num i) = stringifyInt i from rfl]
            unfold stringifyInt
            rw [if_pos hi]
          rw [h1]
          have h2 := parseNat?_natRepr i.natAbs rest hstop
          have h3 : ((i.natAbs : Int)) = -i := by omega
          simp +decide [parseVal, skipWs, h2, h3]
        · obtain ⟨c, t, ht, hdig⟩ := natRepr_head i.natAbs
          have h1 : stringifyChars (.num i) = c :: t := by
            rw [show stringifyChars (.num i) = stringifyInt i from rfl]
            unfold stringifyInt
            rw [if_neg hi, ht]
          obtain ⟨hws, hn, htc, hf, hq, hm, hlb, hcb, _⟩ := digit_not_special hdig
          have h2 : parseNat? (c :: (t ++ rest)) = some (i.natAbs, rest) := by
            have h3 := parseNat?_natRepr i.natAbs rest hstop
            rw [ht] at h3
            simpa using h3
          have h4 : ((i.natAbs : Int)) = i := by omega
          rw [h1]
          simp [parseVal, skipWs_cons _ hws, hn, htc, hf, hq, hm, hlb, hcb, h2, h4]
      | str s =>
        have h1 : stringifyChars (.str s) ++ rest
            = '"' :: (escapeList s.data ++ '"' :: rest) := by
          simp [stringifyChars]
        rw [h1]
        simp +decide [parseVal, skipWs, parseStrBody_escape, chStr_data]
      | arr xs =>
        have h1 : stringifyChars (.arr xs) ++ rest
            = '[' :: (stringifyArrBody xs ++ rest) := by
          simp [stringifyChars]
        rw [h1]
        have h2 := ihA xs rest (by simp [jsize] at hsz; omega)
        simp +decide [parseVal, skipWs, h2]
      | obj fs =>
        have h1 : stringifyChars (.obj fs) ++ rest
            = jLBrace :: (stringifyObjBody fs ++ rest) := by
          simp [stringifyChars]
        rw [h1]
        have h2 := ihO fs rest (by simp [jsize] at hsz; omega)
        simp +decide [parseVal, skipWs, h2]
    refine ⟨hVal, ?_, ?_, ?_, ?_, ?_⟩
    · -- parseArrBody
      intro xs rest hsz
      cases xs with
      | nil => simp +decide [stringifyArrBody, parseArrBody, skipWs]
      | cons v tl =>
        obtain ⟨c, t, hct, hws, hrb⟩ := stringify_head v
        have h1 : stringifyArrBody (.cons v tl) ++ rest
            = c :: (t ++ (stringifyListRest tl ++ rest)) := by
          simp [stringifyArrBody, hct]
        have hv := ihV v (stringifyListRest tl ++ rest)
          (by simp [lsize] at hsz; omega) (stopsNum_listRest tl rest)
        rw [hct] at hv
        simp only [List.cons_append, List.append_assoc] at hv
        have hl := ihL tl rest (by simp [lsize] at hsz; omega)
        rw [h1]
        simp [parseArrBody, skipWs_cons _ hws, hrb, hv, hl]
    · -- parseListRest
      intro xs rest hsz
      cases xs with
      | nil => simp +decide [stringifyListRest, parseListRest, skipWs]
      | cons v tl =>
        have h1 : stringifyListRest (.cons v tl) ++ rest
            = ',' :: (stringifyChars v ++ (stringifyListRest tl ++ rest)) := by
          simp [stringifyListRest]
        have hv := ihV v (stringifyListRest tl ++ rest)
          (by simp [lsize] at hsz; omega) (stopsNum_listRest tl rest)
        have hl := ihL tl rest (by simp [lsize] at hsz; omega)
        rw [h1]
        simp +decide [parseListRest, skipWs, hv, hl]
    · -- parseObjBody
      intro fs rest hsz
      cases fs with
      | nil => simp +decide [stringifyObjBody, parseObjBody, skipWs]
      | cons k v tl =>
        have h1 : stringifyObjBody (.cons k v tl) ++ rest
            = '"' :: ((escapeList k.data ++ '"' :: ':' :: stringifyChars v)
                ++ (stringifyMembersRest tl ++ rest)) := by
          simp [stringifyObjBody]
        have hm := ihM k v (stringifyMembersRest tl ++ rest)
          (by simp [msize] at hsz; omega) (stopsNum_membersRest tl rest)
        have hr := ihR tl rest (by simp [msize] at hsz; omega)
        simp only [List.cons_append, List.append_assoc] at hm
        rw [h1]
        simp +decide [parseObjBody, skipWs, hm, hr]
    · -- parseMember
      intro k v rest hsz hstop
      have h1 : ('"' :: escapeList (String.data k) ++ '"' :: ':' :: stringifyChars v) ++ rest
          = '"' :: (escapeList k.data ++ '"' :: (':' :: (stringifyChars v ++ rest))) := by
        simp
      have hv := ihV v rest (by omega) hstop
      rw [h1]
      simp +decide [parseMember, skipWs, parseStrBody_escape, chStr_data, hv]
    · -- parseMembersRest
      intro fs rest hsz
      cases fs with
      | nil => simp +decide [stringifyMembersRest, parseMembersRest, skipWs]
      | cons k v tl =>
        have h1 : stringifyMembersRest (.cons k v tl) ++ rest
            = ',' :: (('"' :: escapeList k.data ++ '"' :: ':' :: stringifyChars v)
                ++ (stringifyMembersRest tl ++ rest)) := by
          simp [stringifyMembersRest]
        have hm := ihM k v (stringifyMembersRest tl ++ rest)
          (by simp [msize] at hsz; omega) (stopsNum_membersRest tl rest)
        have hr := ihR tl rest (by simp [msize] at hsz; omega)
        simp only [List.cons_append, List.append_assoc] at hm
        rw [h1]
        simp +decide [parseMembersRest, skipWs, hm, hr]

mutual
theorem jsize_le_stringify : ∀ v : JVal, jsize v + 1 ≤ 2 * (stringifyChars v).length
  | .null => by simp [jsize, stringifyChars]
  | .bool b => by cases b <;> simp [jsize, stringifyChars]
  | .num i => by
    have h : (stringifyChars (.num i)).length ≥ 1 := by
      obtain ⟨c, t, hct, _, _⟩ := stringify_head (.num i)
      simp [hct]
    simp [jsize]
    omega
  | .str s => by simp [jsize, stringifyChars]
  | .arr xs => by
    have h := lsize_le_arrBody xs
    simp [jsize, stringifyChars]
    omega
  | .obj fs => by
    have h := msize_le_objBody fs
    simp [jsize, stringifyChars]
    omega
theorem lsize_le_arrBody : ∀ xs : JList, lsize xs ≤ 2 * (stringifyArrBody xs).length
  | .nil => by simp [lsize, stringifyArrBody]
  | .cons v tl => by
    have h1 := jsize_le_stringify v
    have h2 := lsize_le_listRest tl
    simp [lsize, stringifyArrBody]
    omega
theorem lsize_le_listRest : ∀ xs : JList, lsize xs ≤ 2 * (stringifyListRest xs).length
  | .nil => by simp [lsize, stringifyListRest]
  | .cons v tl => by
    have h1 := jsize_le_stringify v
    have h2 := lsize_le_listRest tl
    simp [lsize, stringifyListRest]
    omega
theorem msize_le_objBody : ∀ fs : JMembers, msize fs ≤ 2 * (stringifyObjBody fs).length
  | .nil => by simp [msize, stringifyObjBody]
  | .cons k v tl => by
    have h1 := jsize_le_stringify v
    have h2 := msize_le_membersRest tl
    simp [msize, stringifyObjBody]
    omega
theorem msize_le_membersRest : ∀ fs : JMembers, msize fs ≤ 2 * (stringifyMembersRest fs).length
  | .nil => by simp [msize, stringifyMembersRest]
  | .cons k v tl => by
    have h1 := jsize_le_stringify v
    have h2 := msize_le_membersRest tl
    simp [msize, stringifyMembersRest]
    omega
end

/-- The executable JSON printer and parser invert each other: re-reading a
document the model wrote recovers exactly the written value. -/
theorem jsonParse_stringify (v : JVal) : jsonParse (jsonStringify v) = some v := by
  have hsz : jsize v ≤ 2 * (stringifyChars v).length + 2 := by
    have h := jsize_le_stringify v
    omega
  have h := (parse_stringify_aux (2 * (stringifyChars v).length + 2)).1 v [] hsz trivial
  simp only [List.append_nil] at h
  simp [jsonParse, jsonStringify, chStr, h, skipWs]

/-! ## Theorems: file-system and association-list frame lemmas -/

theorem lookupAssoc_setAssoc_self (l : List (String × String)) (k v : String) :
    lookupAssoc (setAssoc l k v) k = some v := by
  induction l with
  | nil => simp [setAssoc, lookupAssoc]
  | cons hd tl ih =>
    obtain ⟨k0, v0⟩ := hd
    by_cases h : k0 = k <;> simp [setAssoc, lookupAssoc, h, ih]

theorem lookupAssoc_setAssoc_ne (l : List (String × String)) (k v q : String)
    (h : q ≠ k) :
    lookupAssoc (setAssoc l k v) q = lookupAssoc l q := by
  induction l with
  | nil => simp [setAssoc, lookupAssoc, Ne.symm h]
  | cons hd tl ih =>
    obtain ⟨k0, v0⟩ := hd
    by_cases h0 : k0 = k
    · subst h0
      simp [setAssoc, lookupAssoc, Ne.symm h]
    · simp [setAssoc, lookupAssoc, h0, ih]

theorem FS.read_write_self (fs : FS) (p c : String) :
    (fs.write p c).read p = some c :=
  lookupAssoc_setAssoc_self fs.files p c

theorem FS.read_write_ne (fs : FS) (p c q : String) (h : q ≠ p) :
    (fs.write p c).read q = fs.read q :=
  lookupAssoc_setAssoc_ne fs.files p c q h

theorem mem_keysOf_setAssoc (l : List (String × String)) (k v x : String)
    (hx : x ∈ keysOf (setAssoc l k v)) :
    x ∈ keysOf l ∨ x = k := by
  induction l with
  | nil =>
    rw [setAssoc, keysOf, keysOf] at hx
    simp at hx
    exact Or.inr hx
  | cons hd tl ih =>
    obtain ⟨k0, v0⟩ := hd
    by_cases h0 : k0 = k
    · rw [setAssoc, if_pos h0, keysOf] at hx
      rw [keysOf]
      simp at hx ⊢
      rcases hx with hx | hx
      · exact Or.inl (Or.inl hx)
      · exact Or.inl (Or.inr hx)
    · rw [setAssoc, if_neg h0, keysOf] at hx
      rw [keysOf]
      simp at hx ⊢
      rcases hx with hx | hx
      · exact Or.inl (Or.inl hx)
      · rcases ih hx with hm | hm
        · exact Or.inl (Or.inr hm)
        · exact Or.inr hm

theorem keysNodup_setAssoc (l : List (String × String)) (k v : String)
    (h : keysNodup l) : keysNodup (setAssoc l k v) := by
  induction l with
  | nil => simp [keysNodup, setAssoc, keysOf]
  | cons hd tl ih =>
    obtain ⟨k0, v0⟩ := hd
    rw [keysNodup, keysOf, List.nodup_cons] at h
    by_cases h0 : k0 = k
    · rw [keysNodup, setAssoc, if_pos h0, keysOf, List.nodup_cons]
      exact h
    · rw [keysNodup, setAssoc, if_neg h0, keysOf, List.nodup_cons]
      refine ⟨?_, ih h.2⟩
      intro hmem
      rcases mem_keysOf_setAssoc tl k v k0 hmem with hm | hm
      · exact h.1 hm
      · exact h0 hm

theorem lookupLast_not_mem (l : List (String × String)) (n : String)
    (h : n ∉ keysOf l) : lookupLast l n = none := by
  induction l with
  | nil => rfl
  | cons hd tl ih =>
    obtain ⟨k, v⟩ := hd
    rw [keysOf] at h
    simp at h
    rw [lookupLast, ih h.2]
    simp [Ne.symm h.1]

theorem lookupLast_setAssoc (l : List (String × String)) (k v n : String)
    (h : keysNodup l) :
    lookupLast (setAssoc l k v) n = if k = n then some v else lookupLast l n := by
  induction l with
  | nil =>
    simp [setAssoc, lookupLast]
  | cons hd tl ih =>
    obtain ⟨k0, v0⟩ := hd
    rw [keysNodup, keysOf, List.nodup_cons] at h
    by_cases h0 : k0 = k
    · subst h0
      rw [setAssoc, if_pos rfl, lookupLast]
      by_cases hn : k0 = n
      · subst hn
        rw [lookupLast_not_mem tl k0 h.1]
        simp
      · rw [lookupLast]
        simp [hn]
    · rw [setAssoc, if_neg h0, lookupLast, ih h.2, lookupLast]
      by_cases hn : k = n
      · subst hn
        have hk0 : ¬k0 = k := h0
        simp [hk0]
      · simp [hn]

/-! ## Theorems: JSON member updates -/

theorem lookup_setKey_self : ∀ (fs : JMembers) (k : String) (v : JVal),
    (fs.setKey k v).lookup k = some v
  | .nil, k, v => by simp [JMembers.setKey, JMembers.lookup]
  | .cons k0 v0 tl, k, v => by
    by_cases h : k0 = k <;>
      simp [JMembers.setKey, JMembers.lookup, h, lookup_setKey_self tl k v]

theorem lookup_setKey_ne : ∀ (fs : JMembers) (k : String) (v : JVal) (n : String),
    n ≠ k → (fs.setKey k v).lookup n = fs.lookup n
  | .nil, k, v, n, h => by simp [JMembers.setKey, JMembers.lookup, Ne.symm h]
  | .cons k0 v0 tl, k, v, n, h => by
    by_cases h0 : k0 = k
    · subst h0
      simp [JMembers.setKey, JMembers.lookup, Ne.symm h]
    · simp [JMembers.setKey, JMembers.lookup, h0, lookup_setKey_ne tl k v n h]

theorem lookup_applyRepl (deps : JMembers) (repl : List (String × String)) (n : String) :
    (applyRepl deps repl).lookup n
      = (match lookupLast repl n with
         | some w => some (.str w)
         | none => deps.lookup n) := by
  induction repl generalizing deps with
  | nil => simp [applyRepl, lookupLast]
  | cons hd tl ih =>
    obtain ⟨k, v⟩ := hd
    rw [applyRepl, ih, lookupLast]
    rcases htl : lookupLast tl n with _ | w
    · by_cases hk : k = n
      · subst hk
        simp [lookup_setKey_self]
      · simp [hk, lookup_setKey_ne _ _ _ _ (fun hh => hk hh.symm)]
    · simp

/-! ## Theorems: the link loop -/

theorem processLinks_spec (d : AbsDir) (pj : JVal) :
    ∀ (links : List LinkInput) (st0 st : LoopState),
      processLinks d pj links st0 = .ok st →
      st.events = st0.events ++ links.filterMap (addEventOf d pj) ∧
      (keysNodup st0.repl →
        keysNodup st.repl ∧
        ∀ n, lookupLast st.repl n
          = (match lastMatchSpec d pj links n with
             | some v => some v
             | none => lookupLast st0.repl n)) := by
  intro links
  induction links with
  | nil =>
    intro st0 st h
    simp [processLinks] at h
    subst h
    refine ⟨by simp, fun hnd => ⟨hnd, fun n => by simp [lastMatchSpec]⟩⟩
  | cons lk tl ih =>
    intro st0 st h
    rw [processLinks] at h
    rcases hpl : processLink d pj st0 lk with e | st1 <;> rw [hpl] at h
    · simp at h
    · rcases hdd : decodeLinkDir lk with e | dd
      · rw [processLink] at hpl
        rw [hdd] at hpl
        simp at hpl
      · simp only [processLink, hdd] at hpl
        by_cases hmat : (pj.truthy && depsIsWorkspaceStar pj (linkName dd)) = true
        · rw [if_pos hmat] at hpl
          simp only [Except.ok.injEq] at hpl
          obtain ⟨hev, hrepl⟩ := ih st1 st h
          subst hpl
          constructor
          · rw [hev]
            simp [addEventOf, hdd, hmat]
          · intro hnd
            obtain ⟨hnd2, hlook⟩ := hrepl (keysNodup_setAssoc _ _ _ hnd)
            refine ⟨hnd2, fun n => ?_⟩
            rw [hlook n, lastMatchSpec]
            rcases lastMatchSpec d pj tl n with _ | v
            · simp only [hdd]
              rw [lookupLast_setAssoc _ _ _ _ hnd]
              by_cases hn : linkName dd = n
              · rw [if_pos hn]
                rw [hn] at hmat
                have hbeq : (linkName dd == n) = true := by simp [hn]
                simp [hmat, hbeq, hn]
              · rw [if_neg hn]
                have hbeq : (linkName dd == n) = false := by simp [hn]
                simp [hbeq]
            · simp
        · have hb : (pj.truthy && depsIsWorkspaceStar pj (linkName dd)) = false := by
            revert hmat
            rcases pj.truthy && depsIsWorkspaceStar pj (linkName dd) <;> simp
          rw [if_neg hmat] at hpl
          simp only [Except.ok.injEq] at hpl
          obtain ⟨hev, hrepl⟩ := ih st1 st h
          subst hpl
          constructor
          · rw [hev]
            simp [addEventOf, hdd, hb]
          · intro hnd
            obtain ⟨hnd2, hlook⟩ := hrepl hnd
            refine ⟨hnd2, fun n => ?_⟩
            rw [hlook n, lastMatchSpec]
            rcases lastMatchSpec d pj tl n with _ | v
            · simp [hdd, hb]
            · simp

/-! ## Theorems: the workspace-rewrite step -/

theorem rewriteStep_empty (d : AbsDir) (fs : FS) :
    rewriteStep d [] fs = .ok (fs, []) := by
  simp [rewriteStep]

theorem rewriteStep_spec (d : AbsDir) (repl : List (String × String)) (fs : FS)
    (content : String) (fields deps : JMembers)
    (hne : repl ≠ [])
    (hread : fs.read (manifestPath d) = some content)
    (hparse : jsonParse content = some (.obj fields))
    (hdeps : fields.lookup "dependencies" = some (.obj deps)) :
    rewriteStep d repl fs
      = .ok (fs.write (manifestPath d)
          (jsonStringify (.obj (fields.setKey "dependencies" (.obj (applyRepl deps repl))))),
          [Event.fsWrite (manifestPath d)]) := by
  have hemp : repl.isEmpty = false := by
    cases repl with
    | nil => exact absurd rfl hne
    | cons hd tl => rfl
  rw [rewriteStep, hemp]
  simp only [Bool.false_eq_true, if_false, hread, hparse]
  have htr : JVal.truthy (.obj fields) = true := rfl
  have hft : fieldTruthy (.obj fields) "dependencies" = true := by
    simp [fieldTruthy, JVal.getField, hdeps, JVal.truthy]
  rw [htr, hft]
  simp [hdeps]

theorem depEntry_after_write (fs : FS) (d : AbsDir) (deps2 fields : JMembers) (n : String) :
    depEntry (fs.write (manifestPath d)
        (jsonStringify (.obj (fields.setKey "dependencies" (.obj deps2))))) d n
      = deps2.lookup n := by
  rw [depEntry, FS.read_write_self]
  simp [jsonParse_stringify, JVal.getField, lookup_setKey_self]

theorem depEntry_plain (fs : FS) (d : AbsDir) (content : String)
    (fields deps : JMembers)
    (hread : fs.read (manifestPath d) = some content)
    (hparse : jsonParse content = some (.obj fields))
    (hdeps : fields.lookup "dependencies" = some (.obj deps)) (n : String) :
    depEntry fs d n = deps.lookup n := by
  rw [depEntry, hread]
  simp [hparse, JVal.getField, hdeps]

/-! ## Theorems: configuration resolution and `create` plumbing -/

theorem resolveConfigInput_fields (ci : ConfigInput) (now : Nat) (fs0 : FS)
    (cfg : Config) (fs1 : FS)
    (h : resolveConfigInput ci now fs0 = .ok (cfg, fs1)) :
    cfg.pkgEnabled = decide (ci.package ≠ some PackageInput.disabled) ∧
    cfg.pkgInstall = (match ci.package with
      | some (.options inst _) => inst.getD false
      | _ => false) ∧
    resolveScaffold ci.scaffold = .ok cfg.scaffold := by
  rw [resolveConfigInput] at h
  rcases hsc : resolveScaffold ci.scaffold with e | sc <;> rw [hsc] at h
  · simp at h
  · rcases hdir : resolveDirectory ci.directory now fs0 with e | p <;> rw [hdir] at h
    · simp at h
    · obtain ⟨d, fs2⟩ := p
      simp only [Except.ok.injEq, Prod.mk.injEq] at h
      obtain ⟨hcfg, _⟩ := h
      subst hcfg
      exact ⟨rfl, rfl, rfl⟩

theorem create_unfold (ci : ConfigInput) (now : Nat) (fs0 : FS)
    (cfg : Config) (fs1 : FS)
    (h : resolveConfigInput ci now fs0 = .ok (cfg, fs1)) :
    create ci now fs0 =
      (if cfg.pkgEnabled && !(loadManifest cfg.directory (scaffoldStep cfg fs1).1).truthy then
        .error (.packageJsonMissing cfg.directory.encode)
      else
        match processLinks cfg.directory (loadManifest cfg.directory (scaffoldStep cfg fs1).1)
            (linksOf ci) ⟨[], []⟩ with
        | .error e => .error e
        | .ok st =>
          match rewriteStep cfg.directory st.repl (scaffoldStep cfg fs1).1 with
          | .error e => .error e
          | .ok (fs3, ev2) =>
            .ok ({ dir := cfg.directory,
                   packageJson := fromNullable (loadManifest cfg.directory (scaffoldStep cfg fs1).1) },
                 fs3, (scaffoldStep cfg fs1).2 ++ st.events ++ ev2 ++ installStep cfg.pkgInstall)) := by
  rw [create, h]

/-! ## Claim theorems -/

/-- C1: the claim demands that every queued workspace rewrite be persisted to
the manifest before any subsequent package-manager command, including an
immediate add for a different link request.  Evaluating `create` at the
failing input — manifest declaring `liba` as `workspace:*`, link requests
`[/tmp/liba/ (queued), /tmp/libb/ (immediate add)]` — shows the code does the
opposite: the `add` command for `libb` is issued while `liba`'s rewrite is
still only queued, and the manifest write occurs after it. -/
theorem c1_add_issued_before_rewrite_write :
    runTrace (create orderInput 0 orderFs)
      = [Event.pm "add link:../tmp/libb/", Event.fsWrite "/tmp/p/package.json"] := by
  decide

/-- C2 counterexample: in the claimed end-to-end scenario (project root
`/tmp/p/`, link target `/tmp/mylib/`, protocol `link`, manifest without a
`mylib` dependency) the one package-manager command issued is
`add link:../tmp/mylib/`, not the claimed `add link:../mylib`: the string
`/tmp/p/` does not occur in `/tmp/mylib/`, so the `replace` removes
nothing. -/
theorem c2_command_not_sibling_relative :
    runPmCmds (create sibInput 0 ⟨[], []⟩) = ["add link:../tmp/mylib/"] ∧
    "add link:../tmp/mylib/" ≠ "add link:../mylib" := by
  decide

/-- C2 amended: in that scenario exactly one package-manager command is
issued, namely `add link:../tmp/mylib/`; the manifest is otherwise unchanged
(it still holds exactly the init literal and gains no `mylib` entry); and the
relative path is the target's encoded path with the first occurrence of the
project root's encoded path removed (a no-op here, as `/tmp/p/` does not occur
in `/tmp/mylib/`), a leading separator stripped, and `../` prepended. -/
theorem c2_sibling_link_scenario :
    runPmCmds (create sibInput 0 ⟨[], []⟩) = ["add link:../tmp/mylib/"] ∧
    manifestTextOf (create sibInput 0 ⟨[], []⟩) = some (jsonStringify initManifest) ∧
    runDepEntry (create sibInput 0 ⟨[], []⟩) "mylib" = none ∧
    relSpecifier ⟨["tmp", "p"]⟩ ⟨["tmp", "mylib"]⟩ = "../tmp/mylib/" := by
  refine ⟨by decide, by decide, rfl, by decide⟩

/-- C5 counterexample: an empty-string `scaffold` is falsy in JavaScript, so
`resolveConfigInput` resolves it to the Init variant — whereas the claim's
rule for plain strings ("always interpreted as a template source directory,
decode failure raising InvalidDirectoryError") would require decoding `""`,
which fails. -/
theorem c5_empty_string_scaffold_is_init :
    resolveScaffold (some (.str "")) = .ok .init ∧ AbsDir.decode "" = none := by
  exact ⟨rfl, rfl⟩

/-- C5 amended: the scaffold normalization rules, with the empty string
excepted from the plain-string rule: no `scaffold`, or an empty-string
`scaffold`, resolves to Init; a non-empty plain string is always decoded as a
template source directory (InvalidDirectoryError on failure); a structured
directory value resolves to Template with it; a tagged `template` object
decodes its `dir` when it is a string and uses it directly otherwise; a tagged
`init` object resolves to Init. -/
theorem c5_scaffold_normalization (s : String) (d : AbsDir) :
    (resolveScaffold none = .ok .init) ∧
    (resolveScaffold (some (.str "")) = .ok .init) ∧
    (s ≠ "" → AbsDir.decode s = some d →
      resolveScaffold (some (.str s)) = .ok (.template d)) ∧
    (s ≠ "" → AbsDir.decode s = none →
      resolveScaffold (some (.str s)) = .error (.invalidDirectory s)) ∧
    (resolveScaffold (some (.dir d)) = .ok (.template d)) ∧
    (AbsDir.decode s = some d →
      resolveScaffold (some (.template (.str s))) = .ok (.template d)) ∧
    (AbsDir.decode s = none →
      resolveScaffold (some (.template (.str s))) = .error (.invalidDirectory s)) ∧
    (resolveScaffold (some (.template (.dir d))) = .ok (.template d)) ∧
    (resolveScaffold (some .initTag) = .ok .init) := by
  have hf : ∀ s2 : String, s2 ≠ "" → scaffoldFalsy (some (.str s2)) = false := by
    intro s2 hs2
    simp [scaffoldFalsy, hs2]
  refine ⟨rfl, rfl, ?_, ?_, rfl, ?_, ?_, rfl, rfl⟩
  · intro hs hd
    rw [resolveScaffold, hf s hs]
    simp [hd]
  · intro hs hd
    rw [resolveScaffold, hf s hs]
    simp [hd]
  · intro hd
    rw [resolveScaffold]
    simp [scaffoldFalsy, hd]
  · intro hd
    rw [resolveScaffold]
    simp [scaffoldFalsy, hd]

/-- C5 witness: the non-empty plain string `"/x/"` decodes and resolves to the
Template variant. -/
theorem c5_scaffold_normalization_witness :
    ("/x/" : String) ≠ "" ∧
    resolveScaffold (some (.str "/x/")) = .ok (.template ⟨["x"]⟩) :=
  ⟨by decide, (c5_scaffold_normalization "/x/" ⟨["x"]⟩).2.2.1 (by decide) (by decide)⟩

/-- C8: the claim demands that two creations with `directory` omitted never
resolve to the same synthesized path.  Evaluated at the failing input — two
calls (even with different configurations) within the same millisecond
(`Date.now() = 0`) — both resolve to `/tmp/projector-0/` (and the directory is
created recursively, as the `dirs` record shows). -/
theorem c8_same_millisecond_same_path :
    resolvedDirOf ⟨none, none, none⟩ 0 ⟨[], []⟩ = some "/tmp/projector-0/" ∧
    resolvedDirOf ⟨none, some (.options none none), none⟩ 0 ⟨[], []⟩
      = some "/tmp/projector-0/" ∧
    resolvedDirsOf ⟨none, none, none⟩ 0 ⟨[], []⟩ = some ["/tmp/projector-0/"] := by
  decide

/-- C3 counterexample: with `dependencies.mylib = "workspace:*"` and two link
requests both bearing the final path segment `mylib` (first `/a/mylib/` with
protocol `link`, then `/b/mylib/` with protocol `file`), no add command is
issued, but after creation the manifest's `mylib` entry holds the second
request's specifier `file:../b/mylib/` — not the first request's own
`link:../a/mylib/`, refuting the claim's "the manifest's entry for that name
equals `<protocol>:<relativePath>`" universally over link requests. -/
theorem c3_duplicate_name_last_wins :
    runPmCmds (create dupInput 0 dupFs) = [] ∧
    runDepEntry (create dupInput 0 dupFs) "mylib" = some (.str "file:../b/mylib/") ∧
    "file:../b/mylib/" ≠ "link:../a/mylib/" := by
  refine ⟨by decide, rfl, by decide⟩

/-- C3 amended: when a manifest was loaded (truthy) with a `dependencies`
object, the link loop issues add commands exactly for the non-matching link
requests, in list order and each with its own `"<protocol>:<relativePath>"`
specifier (so no add command is issued for a matching request); and after the
workspace-rewrite step the manifest's `dependencies` entry for a name equals
the specifier of the **last** matching link request bearing that name — hence
each matching request's own specifier whenever final path segments are
distinct — while entries for names with no matching request are left
unmodified. -/
theorem c3_link_decision_spec (d : AbsDir) (pj : JVal) (links : List LinkInput)
    (st : LoopState) (fs : FS) (content : String) (fields deps : JMembers)
    (_htr : pj.truthy = true)
    (hrun : processLinks d pj links ⟨[], []⟩ = .ok st)
    (hread : fs.read (manifestPath d) = some content)
    (hparse : jsonParse content = some (.obj fields))
    (hdeps : fields.lookup "dependencies" = some (.obj deps)) :
    st.events = links.filterMap (addEventOf d pj) ∧
    ∃ fs2 evs, rewriteStep d st.repl fs = .ok (fs2, evs) ∧
      ∀ n, depEntry fs2 d n
        = (match lastMatchSpec d pj links n with
           | some v => some (JVal.str v)
           | none => deps.lookup n) := by
  obtain ⟨hev, hrepl⟩ := processLinks_spec d pj links ⟨[], []⟩ st hrun
  obtain ⟨_, hlook⟩ := hrepl (by simp [keysNodup, keysOf])
  have hlook2 : ∀ n, lookupLast st.repl n = lastMatchSpec d pj links n := by
    intro n
    rw [hlook n]
    rcases lastMatchSpec d pj links n with _ | v <;> simp [lookupLast]
  constructor
  · simpa using hev
  · rcases hrep : st.repl with _ | ⟨p, tl⟩
    · refine ⟨fs, [], rewriteStep_empty d fs, fun n => ?_⟩
      rw [depEntry_plain fs d content fields deps hread hparse hdeps n]
      have h0 : lastMatchSpec d pj links n = none := by
        rw [← hlook2 n, hrep]
        rfl
      rw [h0]
    · rw [← hrep]
      refine ⟨_, _, rewriteStep_spec d st.repl fs content fields deps
        (by rw [hrep]; simp) hread hparse hdeps, fun n => ?_⟩
      rw [depEntry_after_write, lookup_applyRepl, hlook2 n]

/-- C3 witness: one matching link request `/tmp/mylib/` with protocol `link`
against a manifest declaring `mylib` as `workspace:*`: no add command is
queued as an event, the rewrite step succeeds, and the `mylib` entry afterward
is that request's own specifier. -/
theorem c3_link_decision_spec_witness :
    (⟨[("mylib", "link:../tmp/mylib/")], []⟩ : LoopState).events
      = [⟨StrOrDir.dir ⟨["tmp", "mylib"]⟩, LinkProtocol.link⟩].filterMap
          (addEventOf ⟨["tmp", "p"]⟩ wsManifestM) ∧
    ∃ fs2 evs,
      rewriteStep ⟨["tmp", "p"]⟩
          (⟨[("mylib", "link:../tmp/mylib/")], []⟩ : LoopState).repl dupFs
        = .ok (fs2, evs) ∧
      ∀ n, depEntry fs2 ⟨["tmp", "p"]⟩ n
        = (match lastMatchSpec ⟨["tmp", "p"]⟩ wsManifestM
             [⟨StrOrDir.dir ⟨["tmp", "mylib"]⟩, LinkProtocol.link⟩] n with
           | some v => some (JVal.str v)
           | none => wsDepsM.lookup n) :=
  c3_link_decision_spec ⟨["tmp", "p"]⟩ wsManifestM
    [⟨StrOrDir.dir ⟨["tmp", "mylib"]⟩, LinkProtocol.link⟩]
    ⟨[("mylib", "link:../tmp/mylib/")], []⟩ dupFs (jsonStringify wsManifestM)
    wsFieldsM wsDepsM rfl rfl rfl rfl rfl

/-- C4: a manifest file whose text fails to parse is treated as absent (the
failure is swallowed: with package management disabled, creation succeeds and
the handle's `packageJson` is `none`); and whenever package management is
enabled and no manifest was loaded after scaffolding — the file is absent or
its text unparseable — creation fails with `PackageJsonMissingError` naming
the project root, returning no handle. -/
theorem c4_parse_swallowed_and_missing_fails (ci : ConfigInput) (now : Nat)
    (fs0 : FS) (cfg : Config) (fs1 : FS)
    (hres : resolveConfigInput ci now fs0 = .ok (cfg, fs1)) :
    (∀ c, (scaffoldStep cfg fs1).1.read (manifestPath cfg.directory) = some c →
      jsonParse c = none → ci.package = some PackageInput.disabled →
      create ci now fs0
        = .ok ({ dir := cfg.directory, packageJson := none },
               (scaffoldStep cfg fs1).1, (scaffoldStep cfg fs1).2)) ∧
    (cfg.pkgEnabled = true →
      ((scaffoldStep cfg fs1).1.read (manifestPath cfg.directory) = none ∨
       ∃ c, (scaffoldStep cfg fs1).1.read (manifestPath cfg.directory) = some c ∧
         jsonParse c = none) →
      create ci now fs0 = .error (.packageJsonMissing cfg.directory.encode)) := by
  obtain ⟨hen, hinst, _⟩ := resolveConfigInput_fields ci now fs0 cfg fs1 hres
  rw [create_unfold ci now fs0 cfg fs1 hres]
  constructor
  · intro c hc hp hdis
    have hpj : loadManifest cfg.directory (scaffoldStep cfg fs1).1 = .null := by
      rw [loadManifest, hc]
      simp [hp]
    have hen2 : cfg.pkgEnabled = false := by
      rw [hen, hdis]
      simp
    have hin2 : cfg.pkgInstall = false := by
      rw [hinst, hdis]
    have hlk : linksOf ci = [] := by
      rw [linksOf, hdis]
    rw [hpj, hen2, hlk, hin2]
    simp [processLinks, rewriteStep_empty, installStep, fromNullable]
  · intro hen1 hcase
    have hpj : loadManifest cfg.directory (scaffoldStep cfg fs1).1 = .null := by
      rcases hcase with hnone | ⟨c, hc, hp⟩
      · rw [loadManifest, hnone]
      · rw [loadManifest, hc]
        simp [hp]
    rw [hpj, hen1]
    simp [JVal.truthy]

/-- C4 witness: over a file system whose manifest text is `not json`, creation
with package management disabled succeeds with `packageJson = none`, and with
package management enabled it fails with the missing-manifest error naming
`/tmp/p/`. -/
theorem c4_parse_swallowed_and_missing_fails_witness :
    create badOffInput 0 badJsonFs
      = .ok ({ dir := ⟨["tmp", "p"]⟩, packageJson := none }, badJsonFs, []) ∧
    create badOnInput 0 badJsonFs = .error (.packageJsonMissing "/tmp/p/") :=
  ⟨(c4_parse_swallowed_and_missing_fails badOffInput 0 badJsonFs offCfg badJsonFs
      rfl).1 "not json" rfl rfl rfl,
   (c4_parse_swallowed_and_missing_fails badOnInput 0 badJsonFs onCfg badJsonFs
      rfl).2 rfl (Or.inr ⟨"not json", rfl, rfl⟩)⟩

/-- C6: for every valid configuration whose scaffold resolves to the Init
variant (including `scaffold` omitted), the scaffold step of `create` writes
exactly one file — the manifest at `<root>/package.json` — whose parsed
content is exactly the fixed literal
`{ name: "project", packageManager: "pnpm@10.10.0" }` (independent of every
caller input), and every other path of the file system is untouched. -/
theorem c6_init_writes_fixed_manifest_only (ci : ConfigInput) (now : Nat)
    (fs0 : FS) (cfg : Config) (fs1 : FS)
    (_hres : resolveConfigInput ci now fs0 = .ok (cfg, fs1))
    (hinit : cfg.scaffold = .init) :
    scaffoldStep cfg fs1
      = (fs1.write (manifestPath cfg.directory) (jsonStringify initManifest),
         [Event.fsWrite (manifestPath cfg.directory)]) ∧
    jsonParse (jsonStringify initManifest) = some initManifest ∧
    initManifest = .obj (.cons "name" (.str "project")
      (.cons "packageManager" (.str "pnpm@10.10.0") .nil)) ∧
    (∀ p, p ≠ manifestPath cfg.directory →
      (scaffoldStep cfg fs1).1.read p = fs1.read p) := by
  have h1 : scaffoldStep cfg fs1
      = (fs1.write (manifestPath cfg.directory) (jsonStringify initManifest),
         [Event.fsWrite (manifestPath cfg.directory)]) := by
    rw [scaffoldStep, hinit]
  refine ⟨h1, jsonParse_stringify initManifest, rfl, fun p hp => ?_⟩
  rw [h1]
  exact FS.read_write_ne fs1 _ _ p hp

/-- C6 witness: with `scaffold` omitted and directory `/tmp/p/`, the Init path
writes the fixed manifest into an empty file system. -/
theorem c6_init_writes_fixed_manifest_only_witness :
    scaffoldStep initCfg (⟨[], []⟩ : FS)
      = ((⟨[], []⟩ : FS).write (manifestPath ⟨["tmp", "p"]⟩) (jsonStringify initManifest),
         [Event.fsWrite (manifestPath ⟨["tmp", "p"]⟩)]) ∧
    jsonParse (jsonStringify initManifest) = some initManifest ∧
    initManifest = .obj (.cons "name" (.str "project")
      (.cons "packageManager" (.str "pnpm@10.10.0") .nil)) ∧
    (∀ p, p ≠ manifestPath ⟨["tmp", "p"]⟩ →
      (scaffoldStep initCfg (⟨[], []⟩ : FS)).1.read p = (⟨[], []⟩ : FS).read p) :=
  c6_init_writes_fixed_manifest_only
    ⟨some (.dir ⟨["tmp", "p"]⟩), none, none⟩ 0 ⟨[], []⟩ initCfg ⟨[], []⟩ rfl rfl

/-- C7: for a non-empty set of queued workspace rewrites, the rewrite step
reads the manifest text fresh from the file-system state at rewrite time,
writes the document back in one write, and the result — when re-read through
the parser — preserves every field other than `dependencies` verbatim,
preserves every `dependencies` entry whose name no queued pair targets, and
sets each targeted name to its queued specifier; no other file is touched. -/
theorem c7_rewrite_frame (d : AbsDir) (repl : List (String × String)) (fs : FS)
    (content : String) (fields deps : JMembers)
    (hne : repl ≠ [])
    (hread : fs.read (manifestPath d) = some content)
    (hparse : jsonParse content = some (.obj fields))
    (hdeps : fields.lookup "dependencies" = some (.obj deps)) :
    ∃ fs2, rewriteStep d repl fs = .ok (fs2, [Event.fsWrite (manifestPath d)]) ∧
      fs2 = fs.write (manifestPath d)
        (jsonStringify (.obj (fields.setKey "dependencies" (.obj (applyRepl deps repl))))) ∧
      (∃ m2, jsonParse
          (jsonStringify (.obj (fields.setKey "dependencies" (.obj (applyRepl deps repl)))))
          = some m2 ∧
        ∀ f2, f2 ≠ "dependencies" → m2.getField f2 = JVal.getField (.obj fields) f2) ∧
      (∀ n, lookupLast repl n = none → depEntry fs2 d n = deps.lookup n) ∧
      (∀ n w, lookupLast repl n = some w → depEntry fs2 d n = some (.str w)) ∧
      (∀ p, p ≠ manifestPath d → fs2.read p = fs.read p) := by
  refine ⟨_, rewriteStep_spec d repl fs content fields deps hne hread hparse hdeps,
    rfl, ⟨_, jsonParse_stringify _, fun f2 hf2 => ?_⟩, fun n h0 => ?_, fun n w hw => ?_,
    fun p hp => FS.read_write_ne fs _ _ p hp⟩
  · simp [JVal.getField, lookup_setKey_ne _ _ _ _ hf2]
  · rw [depEntry_after_write, lookup_applyRepl, h0]
  · rw [depEntry_after_write, lookup_applyRepl, hw]

/-- C7 witness: rewriting the queued pair `mylib ↦ link:../tmp/mylib/` over
the `workspace:*` manifest. -/
theorem c7_rewrite_frame_witness :
    ∃ fs2, rewriteStep ⟨["tmp", "p"]⟩ [("mylib", "link:../tmp/mylib/")] dupFs
        = .ok (fs2, [Event.fsWrite (manifestPath ⟨["tmp", "p"]⟩)]) ∧
      fs2 = dupFs.write (manifestPath ⟨["tmp", "p"]⟩)
        (jsonStringify (.obj (wsFieldsM.setKey "dependencies"
          (.obj (applyRepl wsDepsM [("mylib", "link:../tmp/mylib/")]))))) ∧
      (∃ m2, jsonParse (jsonStringify (.obj (wsFieldsM.setKey "dependencies"
          (.obj (applyRepl wsDepsM [("mylib", "link:../tmp/mylib/")])))))
          = some m2 ∧
        ∀ f2, f2 ≠ "dependencies" → m2.getField f2 = JVal.getField (.obj wsFieldsM) f2) ∧
      (∀ n, lookupLast [("mylib", "link:../tmp/mylib/")] n = none →
        depEntry fs2 ⟨["tmp", "p"]⟩ n = wsDepsM.lookup n) ∧
      (∀ n w, lookupLast [("mylib", "link:../tmp/mylib/")] n = some w →
        depEntry fs2 ⟨["tmp", "p"]⟩ n = some (.str w)) ∧
      (∀ p, p ≠ manifestPath ⟨["tmp", "p"]⟩ → fs2.read p = dupFs.read p) :=
  c7_rewrite_frame ⟨["tmp", "p"]⟩ [("mylib", "link:../tmp/mylib/")] dupFs
    (jsonStringify wsManifestM) wsFieldsM wsDepsM (by simp) rfl rfl rfl

/-- C9: an empty-string `directory` is falsy in JavaScript, so
`resolveConfigInput` treats it as omitted — it synthesizes and recursively
creates the temporary directory rather than decoding `""` or failing — and an
empty-string `scaffold` likewise resolves to the Init variant rather than
being decoded as a template source directory. -/
theorem c9_empty_string_directory_and_scaffold (pk : Option PackageInput)
    (now : Nat) (fs : FS) :
    ∃ d fs2, AbsDir.decode (tempDirPath now) = some d ∧
      resolveConfigInput ⟨some (.str ""), pk, some (.str "")⟩ now fs
        = .ok ({ directory := d, scaffold := .init,
                 pkgEnabled := decide (pk ≠ some PackageInput.disabled),
                 pkgInstall := (match pk with
                   | some (.options inst _) => inst.getD false
                   | _ => false) }, fs2) ∧
      fs2 = fs.mkdir d.encode := by
  have hdata : (tempDirPath now).data
      = '/' :: ('t' :: 'm' :: 'p' :: '/' :: 'p' :: 'r' :: 'o' :: 'j' :: 'e' :: 'c'
          :: 't' :: 'o' :: 'r' :: '-' :: (natRepr now ++ ['/'])) := by
    show (("/tmp/projector-" ++ chStr (natRepr now)) ++ "/").data = _
    rw [String.data_append, String.data_append]
    rfl
  have hdec : AbsDir.decode (tempDirPath now)
      = some ⟨((splitOnSlash ('t' :: 'm' :: 'p' :: '/' :: 'p' :: 'r' :: 'o' :: 'j'
          :: 'e' :: 'c' :: 't' :: 'o' :: 'r' :: '-' :: (natRepr now ++ ['/']))).filter
            (fun g => !(g.isEmpty))).map chStr⟩ := by
    rw [AbsDir.decode, hdata]
    rfl
  refine ⟨_, fs.mkdir _, hdec, ?_, rfl⟩
  rw [resolveConfigInput]
  rw [show resolveScaffold (some (.str "")) = .ok Scaffold.init from rfl]
  rw [resolveDirectory]
  rw [show dirTruthy (some (StrOrDir.str "")) = false from rfl]
  rw [hdec]
  rfl

/-- C10 counterexample: a manifest file containing the literal `false` parses
successfully to a falsy value, yet with package management disabled the
returned handle's `packageJson` is `Some false` — not `None` as the claim
states — because `Option.fromNullable` maps only `null` to `None`. -/
theorem c10_false_manifest_is_some :
    pkgJsonOf (create falsyOffInput 0 falsyFs) = some (.bool false) ∧
    some (JVal.bool false) ≠ (none : Option JVal) := by
  exact ⟨rfl, by simp⟩

/-- C10 amended: when the manifest file parses to a falsy JSON value, `create`
treats it as missing for the presence check — with package management enabled,
creation fails with the missing-manifest error even though a parseable
manifest is on disk — but the handle's `files.packageJson` (when creation
proceeds with package management disabled) is `None` exactly when the parsed
value is the literal `null`; any other falsy value (`false`, `0`, `""`) is
returned as `Some` of that value. -/
theorem c10_falsy_manifest (ci : ConfigInput) (now : Nat) (fs0 : FS)
    (cfg : Config) (fs1 : FS) (c : String) (v : JVal)
    (hres : resolveConfigInput ci now fs0 = .ok (cfg, fs1))
    (hread : (scaffoldStep cfg fs1).1.read (manifestPath cfg.directory) = some c)
    (hparse : jsonParse c = some v)
    (hfalsy : v.truthy = false) :
    (cfg.pkgEnabled = true →
      create ci now fs0 = .error (.packageJsonMissing cfg.directory.encode)) ∧
    (ci.package = some PackageInput.disabled →
      create ci now fs0
        = .ok ({ dir := cfg.directory, packageJson := fromNullable v },
               (scaffoldStep cfg fs1).1, (scaffoldStep cfg fs1).2)) ∧
    (fromNullable v = none ↔ v = .null) := by
  obtain ⟨hen, hinst, _⟩ := resolveConfigInput_fields ci now fs0 cfg fs1 hres
  have hpj : loadManifest cfg.directory (scaffoldStep cfg fs1).1 = v := by
    rw [loadManifest, hread]
    simp [hparse]
  refine ⟨?_, ?_, ?_⟩
  · intro hen1
    rw [create_unfold ci now fs0 cfg fs1 hres, hpj, hen1]
    simp [hfalsy]
  · intro hdis
    have hen2 : cfg.pkgEnabled = false := by
      rw [hen, hdis]
      simp
    have hin2 : cfg.pkgInstall = false := by
      rw [hinst, hdis]
    have hlk : linksOf ci = [] := by
      rw [linksOf, hdis]
    rw [create_unfold ci now fs0 cfg fs1 hres, hpj, hen2, hlk, hin2]
    simp [processLinks, rewriteStep_empty, installStep]
  · cases v <;> simp [fromNullable] <;> simp at hfalsy

/-- C10 witness: a manifest file containing `false` — with package management
enabled creation fails with the missing-manifest error; with it disabled the
handle carries `packageJson = some false`, which is not `none` since the
parsed value is not `null`. -/
theorem c10_falsy_manifest_witness :
    create falsyOnInput 0 falsyFs = .error (.packageJsonMissing "/tmp/p/") ∧
    create falsyOffInput 0 falsyFs
      = .ok ({ dir := ⟨["tmp", "p"]⟩, packageJson := fromNullable (.bool false) },
             falsyFs, []) ∧
    (fromNullable (JVal.bool false) = none ↔ (JVal.bool false) = .null) :=
  ⟨(c10_falsy_manifest falsyOnInput 0 falsyFs onCfg falsyFs "false" (.bool false)
      rfl rfl rfl rfl).1 rfl,
   (c10_falsy_manifest falsyOffInput 0 falsyFs offCfg falsyFs "false" (.bool false)
      rfl rfl rfl rfl).2.1 rfl,
   (c10_falsy_manifest falsyOffInput 0 falsyFs offCfg falsyFs "false" (.bool false)
      rfl rfl rfl rfl).2.2⟩

end Projector
